import Mathlib

/-!
Verification of the vo-mfa-service alignment pipeline.

The development shallowly embeds the three orchestration sources
(src/rms_refiner.py, src/aligner.py, src/main.py) into Lean.
Real arithmetic of the Python sources is modelled exactly over the
rationals; machine floats are idealised as rationals.  File system and
process boundaries (librosa.load, the textgrid library reader, the
external mfa and ffmpeg processes) are modelled as explicit inputs:
the refiner receives the decoded sample list, the parser receives the
decoded TextGrid value or a marker that reading failed, and the engine
invoker receives the outcome of the external process.
-/

/-- A word timestamp, the dictionaries with keys word, start, end that
flow through the pipeline.  The Python key end is a Lean keyword, so the
field is called endTime (the name the repository comments use). -/
structure Word where
  word : String
  start : ℚ
  endTime : ℚ
deriving DecidableEq, Repr

/-- Default word used with List.getD when indexing. -/
def wdefault : Word := { word := "", start := 0, endTime := 0 }

/-- Python int() applied to a nonnegative or negative rational:
truncation toward zero. -/
def pyInt (q : ℚ) : ℤ := if 0 ≤ q then ⌊q⌋ else ⌈q⌉

/-- Normalisation of one Python slice index against a list of length n:
negative indices count from the end, then the index is clamped to
[0, n]. -/
def pyIdx (n : ℕ) (a : ℤ) : ℤ := if a < 0 then max 0 ((n : ℤ) + a) else min a (n : ℤ)

/-- Python list slicing l[a:b] with step 1. -/
def pySlice (l : List ℚ) (a b : ℤ) : List ℚ :=
  (l.drop (pyIdx l.length a).toNat).take (pyIdx l.length b - pyIdx l.length a).toNat

/-- Round-half-even on a rational, the rounding mode of Python round(). -/
def rhalfEven (x : ℚ) : ℤ :=
  if Int.fract x < 1/2 then ⌊x⌋
  else if 1/2 < Int.fract x then ⌊x⌋ + 1
  else if Even ⌊x⌋ then ⌊x⌋ else ⌊x⌋ + 1

/-- Python round(q, 4): round-half-even at four decimal places. -/
def round4 (q : ℚ) : ℚ := (rhalfEven (q * 10000) : ℚ) / 10000

/-- Mean of the squares of a frame.  librosa.feature.rms returns the
square root of this; the silence comparison below only ever needs the
square, which keeps everything rational. -/
def meanSq (l : List ℚ) : ℚ := (l.map (fun x => x * x)).sum / (l.length : ℚ)

/-- The mean-square values of the frames that librosa.feature.rms
computes with center=True and zero padding: the segment is padded with
frameLen / 2 zeros on each side, frame i covers padded samples
[i * hop, i * hop + frameLen). -/
def rmsFrames (seg : List ℚ) (frameLen hop : ℕ) : List ℚ :=
  let padded := List.replicate (frameLen / 2) 0 ++ seg ++ List.replicate (frameLen / 2) 0
  (List.range (1 + (padded.length - frameLen) / hop)).map
    (fun i => meanSq ((padded.drop (i * hop)).take frameLen))

/-- amin squared of librosa.amplitude_to_db: amin = 1e-5, so 1e-10 on
the power scale. -/
def aminSq : ℚ := 1 / 10000000000

/-- 10 ^ (threshold_db / 10) for the default threshold_db = -40 of
refine_word_endpoints.  A frame is below the threshold relative to the
window peak exactly when its mean square is below this factor times the
peak mean square (both clamped at aminSq, as amplitude_to_db clamps). -/
def threshFactor : ℚ := 1 / 10000

/-- rms_db < threshold_db for one frame, rewritten on the power scale:
amplitude_to_db(rms, ref=max) compares max(amin, rms) against
10 ^ (threshold/20) * max(amin, peak); squaring both sides gives this
rational test.  The top_db = 80 clamp of amplitude_to_db only raises
values to peak - 80 dB, which is still below the -40 dB threshold, so
it never changes the outcome of the comparison. -/
def isSilent (peak q : ℚ) : Bool := decide (max aminSq q < threshFactor * max aminSq peak)

/-- Index of the first element satisfying p, the model of
np.where(cond)[0][0] guarded by len > 0. -/
def firstIdxWhere (p : α → Bool) : List α → Option ℕ
  | [] => none
  | a :: l => if p a then some 0 else (firstIdxWhere p l).map (· + 1)

/-- np.where(rms_db < threshold_db)[0] first element, over the
mean-square frame list; np.max of the frame values is the reference. -/
def firstSilence (ms : List ℚ) : Option ℕ :=
  firstIdxWhere (isSilent (ms.foldr max 0)) ms

/-- duration = len(y) / sr. -/
def durationOf (y : List ℚ) (sr : ℕ) : ℚ := (y.length : ℚ) / (sr : ℚ)

/-- frame_samples = int(frame_ms / 1000 * sr). -/
def frameSamplesOf (sr frameMs : ℕ) : ℕ := (pyInt ((frameMs : ℚ) / 1000 * (sr : ℚ))).toNat

/-- hop_samples = frame_samples // 2. -/
def hopSamplesOf (sr frameMs : ℕ) : ℕ := frameSamplesOf sr frameMs / 2

/-- search_start = max(0, original_end - 0.020). -/
def searchStartOf (e : ℚ) : ℚ := max 0 (e - 20/1000)

/-- search_end = min(duration, original_end + search_window_ms / 1000). -/
def searchEndOf (y : List ℚ) (sr searchWindowMs : ℕ) (e : ℚ) : ℚ :=
  min (durationOf y sr) (e + (searchWindowMs : ℚ) / 1000)

/-- start_sample = int(search_start * sr). -/
def startSampleOf (sr : ℕ) (e : ℚ) : ℤ := pyInt (searchStartOf e * (sr : ℚ))

/-- end_sample = int(search_end * sr). -/
def endSampleOf (y : List ℚ) (sr searchWindowMs : ℕ) (e : ℚ) : ℤ :=
  pyInt (searchEndOf y sr searchWindowMs e * (sr : ℚ))

/-- segment = y[start_sample:end_sample]. -/
def segmentOf (y : List ℚ) (sr searchWindowMs : ℕ) (e : ℚ) : List ℚ :=
  pySlice y (startSampleOf sr e) (endSampleOf y sr searchWindowMs e)

/-- The mean-square frame list of the search window of a word whose
original end is e. -/
def framesOf (y : List ℚ) (sr searchWindowMs frameMs : ℕ) (e : ℚ) : List ℚ :=
  rmsFrames (segmentOf y sr searchWindowMs e) (frameSamplesOf sr frameMs) (hopSamplesOf sr frameMs)

/-- The refined end time as a function of the original end time alone,
following the per-word body of refine_word_endpoints: the three guard
branches return the word unchanged, otherwise the first silent frame
(if any) fixes the new end, which is clamped and rounded to 4 decimal
places. -/
def refineEnd (y : List ℚ) (sr searchWindowMs frameMs paddingMs : ℕ) (e : ℚ) : ℚ :=
  if endSampleOf y sr searchWindowMs e ≤ startSampleOf sr e then e
  else if (segmentOf y sr searchWindowMs e).length < frameSamplesOf sr frameMs then e
  else if framesOf y sr searchWindowMs frameMs e = [] then e
  else
    match firstSilence (framesOf y sr searchWindowMs frameMs e) with
    | some i =>
        round4 (min (max (searchStartOf e + (i * hopSamplesOf sr frameMs : ℕ) / (sr : ℚ)
          + (paddingMs : ℚ) / 1000) e) (durationOf y sr))
    | none => round4 (min (e + (paddingMs : ℚ) / 1000) (durationOf y sr))

/-- The per-word body of the loop of refine_word_endpoints.  The guard
branches append the input word itself; the main branch rebuilds the
dictionary with the same word and start and the rounded new end. -/
def refineWord (y : List ℚ) (sr searchWindowMs frameMs paddingMs : ℕ) (w : Word) : Word :=
  if endSampleOf y sr searchWindowMs w.endTime ≤ startSampleOf sr w.endTime then w
  else if (segmentOf y sr searchWindowMs w.endTime).length < frameSamplesOf sr frameMs then w
  else if framesOf y sr searchWindowMs frameMs w.endTime = [] then w
  else
    { word := w.word, start := w.start,
      endTime :=
        match firstSilence (framesOf y sr searchWindowMs frameMs w.endTime) with
        | some i =>
            round4 (min (max (searchStartOf w.endTime
              + (i * hopSamplesOf sr frameMs : ℕ) / (sr : ℚ)
              + (paddingMs : ℚ) / 1000) w.endTime) (durationOf y sr))
        | none => round4 (min (w.endTime + (paddingMs : ℚ) / 1000) (durationOf y sr)) }

/-- refine_word_endpoints: the loop over the input words, appending one
refined word per input word. -/
def refineWords (y : List ℚ) (sr searchWindowMs frameMs paddingMs : ℕ) : List Word → List Word
  | [] => []
  | w :: ws => refineWord y sr searchWindowMs frameMs paddingMs w
      :: refineWords y sr searchWindowMs frameMs paddingMs ws

/-! ### Arithmetic facts about the rounding and truncation primitives -/

lemma floor_le_rhalfEven (x : ℚ) : ⌊x⌋ ≤ rhalfEven x := by
  unfold rhalfEven; split_ifs <;> omega

lemma rhalfEven_le_floor_add_one (x : ℚ) : rhalfEven x ≤ ⌊x⌋ + 1 := by
  unfold rhalfEven; split_ifs <;> omega

lemma le_rhalfEven_of_int_le (n : ℤ) (x : ℚ) (h : (n : ℚ) ≤ x) : n ≤ rhalfEven x :=
  le_trans (Int.le_floor.mpr h) (floor_le_rhalfEven x)

lemma rhalfEven_le_of_le_int (x : ℚ) (n : ℤ) (h : x ≤ (n : ℚ)) : rhalfEven x ≤ n := by
  rcases eq_or_lt_of_le h with heq | hlt
  · subst heq
    unfold rhalfEven
    rw [Int.fract_intCast, if_pos (by norm_num)]
    exact le_of_eq (Int.floor_intCast n)
  · have hfl : ⌊x⌋ < n := Int.floor_lt.mpr hlt
    have := rhalfEven_le_floor_add_one x
    omega

lemma rhalfEven_le_half (x : ℚ) : (rhalfEven x : ℚ) ≤ x + 1/2 := by
  have hfr := Int.floor_add_fract x
  have hnn := Int.fract_nonneg x
  unfold rhalfEven
  split_ifs with h1 h2 h3 <;> push_cast <;> linarith

lemma round4_le (q : ℚ) : round4 q ≤ q + 1/20000 := by
  unfold round4
  rw [div_le_iff (by norm_num : (0:ℚ) < 10000)]
  have := rhalfEven_le_half (q * 10000)
  linarith

lemma grid_le_round4 (k : ℤ) (q : ℚ) (h : (k : ℚ)/10000 ≤ q) : (k : ℚ)/10000 ≤ round4 q := by
  unfold round4
  have hk : (k : ℚ) ≤ q * 10000 := by
    rw [div_le_iff (by norm_num : (0:ℚ) < 10000)] at h
    linarith
  have := le_rhalfEven_of_int_le k (q * 10000) hk
  rw [div_le_div_iff (by norm_num) (by norm_num)]
  exact mul_le_mul_of_nonneg_right (by exact_mod_cast this) (by norm_num)

lemma round4_le_grid (q : ℚ) (k : ℤ) (h : q ≤ (k : ℚ)/10000) : round4 q ≤ (k : ℚ)/10000 := by
  unfold round4
  have hk : q * 10000 ≤ (k : ℚ) := by
    rw [le_div_iff (by norm_num : (0:ℚ) < 10000)] at h
    linarith
  have := rhalfEven_le_of_le_int (q * 10000) k hk
  rw [div_le_div_iff (by norm_num) (by norm_num)]
  exact mul_le_mul_of_nonneg_right (by exact_mod_cast this) (by norm_num)

lemma pyInt_of_nonneg {q : ℚ} (h : 0 ≤ q) : pyInt q = ⌊q⌋ := by
  unfold pyInt; exact if_pos h

lemma pyInt_le_self {q : ℚ} (h : 0 ≤ q) : (pyInt q : ℚ) ≤ q := by
  rw [pyInt_of_nonneg h]; exact Int.floor_le q

lemma pyInt_nonneg {q : ℚ} (h : 0 ≤ q) : 0 ≤ pyInt q := by
  rw [pyInt_of_nonneg h]; exact Int.floor_nonneg.mpr h

lemma nonneg_of_pyInt_pos {q : ℚ} (h : 0 < pyInt q) : 0 ≤ q := by
  by_contra hneg
  push_neg at hneg
  have : pyInt q = ⌈q⌉ := by unfold pyInt; rw [if_neg (not_le.mpr hneg)]
  rw [this] at h
  have : (⌈q⌉ : ℤ) ≤ 0 := Int.ceil_le.mpr (by exact_mod_cast hneg.le)
  omega

lemma sub_one_lt_pyInt {q : ℚ} (h : 0 ≤ q) : q - 1 < (pyInt q : ℚ) := by
  rw [pyInt_of_nonneg h]; exact Int.sub_one_lt_floor q

/-! ### Structural facts about the refiner -/

lemma firstIdxWhere_lt_length {α : Type} {p : α → Bool} {l : List α} {i : ℕ}
    (h : firstIdxWhere p l = some i) : i < l.length := by
  induction l generalizing i with
  | nil => simp [firstIdxWhere] at h
  | cons a t ih =>
    unfold firstIdxWhere at h
    split_ifs at h with hp
    · have h0 : (0 : ℕ) = i := by injection h
      simp only [List.length_cons]
      omega
    · cases hfi : firstIdxWhere p t with
      | none => rw [hfi] at h; simp at h
      | some j =>
        rw [hfi] at h
        have hji : j + 1 = i := by injection h
        have := ih hfi
        simp only [List.length_cons]
        omega

lemma firstSilence_lt_length {ms : List ℚ} {i : ℕ} (h : firstSilence ms = some i) :
    i < ms.length :=
  firstIdxWhere_lt_length h

lemma rmsFrames_length (seg : List ℚ) (fl hl : ℕ) :
    (rmsFrames seg fl hl).length = 1 + ((fl / 2 + (seg.length + fl / 2)) - fl) / hl := by
  simp [rmsFrames]

lemma rmsFrames_ne_nil (seg : List ℚ) (fl hl : ℕ) : rmsFrames seg fl hl ≠ [] := by
  intro h
  have := congrArg List.length h
  rw [rmsFrames_length] at this
  simp at this

lemma frames_index_mul_le (seg : List ℚ) (fl hl i : ℕ)
    (hi : i < (rmsFrames seg fl hl).length) : i * hl ≤ seg.length := by
  rw [rmsFrames_length] at hi
  rcases Nat.eq_zero_or_pos hl with h0 | hpos
  · simp [h0]
  · have hidiv : i ≤ ((fl / 2 + (seg.length + fl / 2)) - fl) / hl := by omega
    have h1 : i * hl ≤ (fl / 2 + (seg.length + fl / 2)) - fl :=
      (Nat.le_div_iff_mul_le hpos).mp hidiv
    have h2 : fl / 2 * 2 ≤ fl := Nat.div_mul_le_self fl 2
    omega

lemma segmentOf_length_le (y : List ℚ) (sr W : ℕ) (e : ℚ)
    (ha : 0 ≤ startSampleOf sr e) (hb : 0 ≤ endSampleOf y sr W e)
    (hab : startSampleOf sr e ≤ endSampleOf y sr W e) :
    (segmentOf y sr W e).length ≤ (endSampleOf y sr W e - startSampleOf sr e).toNat := by
  have hA : pyIdx y.length (startSampleOf sr e) = min (startSampleOf sr e) (y.length : ℤ) := by
    unfold pyIdx; rw [if_neg (not_lt.mpr ha)]
  have hB : pyIdx y.length (endSampleOf y sr W e) = min (endSampleOf y sr W e) (y.length : ℤ) := by
    unfold pyIdx; rw [if_neg (not_lt.mpr hb)]
  simp only [segmentOf, pySlice, hA, hB]
  rw [List.length_take, List.length_drop]
  apply le_trans (min_le_left _ _)
  apply Int.toNat_le_toNat
  rcases le_total (startSampleOf sr e) ((y.length : ℤ)) with h | h
  · rw [min_eq_left h]
    exact sub_le_sub_right (min_le_left _ _) _
  · rw [min_eq_right h]
    have h1 : min (endSampleOf y sr W e) ((y.length : ℤ)) ≤ (y.length : ℤ) := min_le_right _ _
    linarith

lemma searchStartOf_nonneg (e : ℚ) : 0 ≤ searchStartOf e := le_max_left 0 _

lemma startSampleOf_nonneg (sr : ℕ) (e : ℚ) : 0 ≤ startSampleOf sr e := by
  unfold startSampleOf
  exact pyInt_nonneg (mul_nonneg (searchStartOf_nonneg e) (Nat.cast_nonneg sr))

/-- In the main branch, the candidate end produced by a silent frame at
index i is bounded by the end of the search window plus one sample plus
the padding: the frame grid (with centered padding) can reach at most
one floor-rounding unit past the window. -/
lemma silence_newEnd_le (y : List ℚ) (sr W F p : ℕ) (e : ℚ) (i : ℕ) (hsr : 0 < sr)
    (hlt : startSampleOf sr e < endSampleOf y sr W e)
    (hi : i < (framesOf y sr W F e).length) :
    searchStartOf e + ((i * hopSamplesOf sr F : ℕ) : ℚ) / (sr : ℚ) + (p : ℚ)/1000
      ≤ searchEndOf y sr W e + 1/(sr : ℚ) + (p : ℚ)/1000 := by
  have hsrQ : (0:ℚ) < (sr : ℚ) := by exact_mod_cast hsr
  have hssr : 0 ≤ searchStartOf e * (sr : ℚ) :=
    mul_nonneg (searchStartOf_nonneg e) hsrQ.le
  have ha : 0 ≤ startSampleOf sr e := startSampleOf_nonneg sr e
  have hb : 0 < endSampleOf y sr W e := lt_of_le_of_lt ha hlt
  have hsenn : 0 ≤ searchEndOf y sr W e * (sr : ℚ) := by
    have hb' : 0 < pyInt (searchEndOf y sr W e * (sr : ℚ)) := hb
    exact nonneg_of_pyInt_pos hb'
  have hble : ((endSampleOf y sr W e : ℤ) : ℚ) ≤ searchEndOf y sr W e * (sr : ℚ) :=
    pyInt_le_self hsenn
  have hagt : searchStartOf e * (sr : ℚ) - 1 < ((startSampleOf sr e : ℤ) : ℚ) :=
    sub_one_lt_pyInt hssr
  have hmul : i * hopSamplesOf sr F ≤ (segmentOf y sr W e).length := by
    apply frames_index_mul_le
    unfold framesOf at hi
    exact hi
  have hlen := segmentOf_length_le y sr W e ha hb.le hlt.le
  have hcast : ((i * hopSamplesOf sr F : ℕ) : ℚ)
      ≤ ((endSampleOf y sr W e : ℤ) : ℚ) - ((startSampleOf sr e : ℤ) : ℚ) := by
    have h1 : ((i * hopSamplesOf sr F : ℕ) : ℚ) ≤ ((segmentOf y sr W e).length : ℚ) := by
      exact_mod_cast hmul
    have h2 : ((segmentOf y sr W e).length : ℚ)
        ≤ (((endSampleOf y sr W e - startSampleOf sr e).toNat : ℕ) : ℚ) := by
      exact_mod_cast hlen
    have h3 : (((endSampleOf y sr W e - startSampleOf sr e).toNat : ℕ) : ℤ)
        = endSampleOf y sr W e - startSampleOf sr e :=
      Int.toNat_of_nonneg (by omega)
    have h4 := congrArg (fun z : ℤ => (z : ℚ)) h3
    push_cast at h4
    linarith [h4 ▸ h2]
  have key : ((i * hopSamplesOf sr F : ℕ) : ℚ) / (sr : ℚ)
      ≤ (searchEndOf y sr W e - searchStartOf e) + 1/(sr : ℚ) := by
    rw [div_le_iff hsrQ]
    have hexp : ((searchEndOf y sr W e - searchStartOf e) + 1/(sr : ℚ)) * (sr : ℚ)
        = (searchEndOf y sr W e - searchStartOf e) * (sr : ℚ) + 1 := by
      field_simp
    rw [hexp]
    have := hcast
    nlinarith [hble, hagt]
  linarith [key]

lemma framesOf_ne_nil (y : List ℚ) (sr W F : ℕ) (e : ℚ) : framesOf y sr W F e ≠ [] :=
  rmsFrames_ne_nil _ _ _

/-- The guard branches of the per-word body all return the original end
and the main branch only changes the end, so the body is the identity on
word and start and a function of the original end on the end field. -/
lemma refineWord_eq (y : List ℚ) (sr W F p : ℕ) (w : Word) :
    refineWord y sr W F p w =
      { word := w.word, start := w.start, endTime := refineEnd y sr W F p w.endTime } := by
  unfold refineWord refineEnd
  split_ifs <;> rfl

lemma refineWords_eq_map (y : List ℚ) (sr W F p : ℕ) (ws : List Word) :
    refineWords y sr W F p ws = ws.map (refineWord y sr W F p) := by
  induction ws with
  | nil => rfl
  | cons w t ih => simp [refineWords, ih]

lemma refineWords_length (y : List ℚ) (sr W F p : ℕ) (ws : List Word) :
    (refineWords y sr W F p ws).length = ws.length := by
  rw [refineWords_eq_map, List.length_map]

lemma refineWords_getD (y : List ℚ) (sr W F p : ℕ) (ws : List Word) (i : ℕ)
    (hi : i < ws.length) :
    (refineWords y sr W F p ws).getD i wdefault = refineWord y sr W F p (ws.getD i wdefault) := by
  induction ws generalizing i with
  | nil => simp at hi
  | cons w t ih =>
    cases i with
    | zero => rfl
    | succ j =>
      simp only [refineWords, List.getD_cons_succ]
      exact ih j (by simpa using hi)

/-! ### Per-word behaviour of the refined end -/

/-- In every branch the refined end of a word that is on the 1/10000
grid and ends inside the signal never moves backward. -/
lemma refineEnd_ge_grid (y : List ℚ) (sr W F p : ℕ) (e : ℚ) (k : ℤ)
    (hd : e ≤ durationOf y sr) (hk : e = (k : ℚ)/10000) :
    e ≤ refineEnd y sr W F p e := by
  unfold refineEnd
  split_ifs with h1 h2 h3
  · exact le_refl e
  · exact le_refl e
  · exact le_refl e
  · cases hfs : firstSilence (framesOf y sr W F e) with
    | some i =>
      simp only [hfs]
      have hmin : e ≤ min (max (searchStartOf e
          + ((i * hopSamplesOf sr F : ℕ) : ℚ) / (sr : ℚ) + (p : ℚ)/1000) e) (durationOf y sr) :=
        le_min (le_max_right _ _) hd
      rw [hk] at hmin ⊢
      exact grid_le_round4 k _ hmin
    | none =>
      simp only [hfs]
      have hp : (0:ℚ) ≤ (p : ℚ)/1000 := by positivity
      have hmin : e ≤ min (e + (p : ℚ)/1000) (durationOf y sr) :=
        le_min (by linarith) hd
      rw [hk] at hmin ⊢
      exact grid_le_round4 k _ hmin

/-- In every branch the refined end stays within half a rounding unit of
the signal duration, provided the original end was inside the signal. -/
lemma refineEnd_le_duration (y : List ℚ) (sr W F p : ℕ) (e : ℚ)
    (hd : e ≤ durationOf y sr) :
    refineEnd y sr W F p e ≤ durationOf y sr + 1/20000 := by
  unfold refineEnd
  split_ifs with h1 h2 h3
  · linarith
  · linarith
  · linarith
  · cases hfs : firstSilence (framesOf y sr W F e) with
    | some i =>
      simp only [hfs]
      have h := round4_le (min (max (searchStartOf e
          + ((i * hopSamplesOf sr F : ℕ) : ℚ) / (sr : ℚ) + (p : ℚ)/1000) e) (durationOf y sr))
      have := min_le_right (max (searchStartOf e
          + ((i * hopSamplesOf sr F : ℕ) : ℚ) / (sr : ℚ) + (p : ℚ)/1000) e) (durationOf y sr)
      linarith
    | none =>
      simp only [hfs]
      have h := round4_le (min (e + (p : ℚ)/1000) (durationOf y sr))
      have := min_le_right (e + (p : ℚ)/1000) (durationOf y sr)
      linarith

/-- In every branch the refined end exceeds the original end by at most
the search window, the padding, one sample period and half a rounding
unit.  This bound needs no precondition on the original end. -/
lemma refineEnd_le_window (y : List ℚ) (sr W F p : ℕ) (e : ℚ) (hsr : 0 < sr) :
    refineEnd y sr W F p e
      ≤ e + (W : ℚ)/1000 + (p : ℚ)/1000 + 1/(sr : ℚ) + 1/20000 := by
  have hsrQ : (0:ℚ) < (sr : ℚ) := by exact_mod_cast hsr
  have hW : (0:ℚ) ≤ (W : ℚ)/1000 := by positivity
  have hp : (0:ℚ) ≤ (p : ℚ)/1000 := by positivity
  have hinv : (0:ℚ) < 1/(sr : ℚ) := by positivity
  unfold refineEnd
  split_ifs with h1 h2 h3
  · linarith
  · linarith
  · linarith
  · cases hfs : firstSilence (framesOf y sr W F e) with
    | some i =>
      simp only [hfs]
      have hv1 := silence_newEnd_le y sr W F p e i hsr (not_le.mp h1)
        (firstSilence_lt_length hfs)
      have hse : searchEndOf y sr W e ≤ e + (W : ℚ)/1000 := min_le_right _ _
      have hmax : max (searchStartOf e
          + ((i * hopSamplesOf sr F : ℕ) : ℚ) / (sr : ℚ) + (p : ℚ)/1000) e
          ≤ e + (W : ℚ)/1000 + (p : ℚ)/1000 + 1/(sr : ℚ) :=
        max_le (by linarith) (by linarith)
      have hmin := min_le_left (max (searchStartOf e
          + ((i * hopSamplesOf sr F : ℕ) : ℚ) / (sr : ℚ) + (p : ℚ)/1000) e) (durationOf y sr)
      have hr := round4_le (min (max (searchStartOf e
          + ((i * hopSamplesOf sr F : ℕ) : ℚ) / (sr : ℚ) + (p : ℚ)/1000) e) (durationOf y sr))
      linarith
    | none =>
      simp only [hfs]
      have hmin := min_le_left (e + (p : ℚ)/1000) (durationOf y sr)
      have hr := round4_le (min (e + (p : ℚ)/1000) (durationOf y sr))
      linarith

/-- When the window is valid and no frame is silent, the refined end is
exactly the rounded clamp of original end plus padding. -/
lemma refineEnd_no_silence (y : List ℚ) (sr W F p : ℕ) (e : ℚ)
    (h1 : startSampleOf sr e < endSampleOf y sr W e)
    (h2 : frameSamplesOf sr F ≤ (segmentOf y sr W e).length)
    (h3 : firstSilence (framesOf y sr W F e) = none) :
    refineEnd y sr W F p e = round4 (min (e + (p : ℚ)/1000) (durationOf y sr)) := by
  unfold refineEnd
  rw [if_neg (not_le.mpr h1), if_neg (not_lt.mpr h2), if_neg (framesOf_ne_nil y sr W F e)]
  simp only [h3]

/-! ### Concrete signals used to check the refiner claims -/

/-- Eight samples of amplitude 1; at sample rate 600 the duration is
8/600 = 0.01333..., whose 4-decimal rounding is 0.0133. -/
def y8 : List ℚ := List.replicate 8 1

/-- Sixty samples: 55 of amplitude 1, one zero, four of amplitude 1.
At sample rate 432 the search window of a word ending at 359/7200 has
its one silent frame exactly on the trailing centered frame. -/
def y60 : List ℚ := List.replicate 55 1 ++ 0 :: List.replicate 4 1

/-- A word whose end lies exactly on the 1/10000 grid. -/
def wGrid : Word := { word := "w", start := 0, endTime := 133/10000 }

set_option maxRecDepth 16000 in
/-- C1, counterexample to the claim as stated: a word whose original end
0.013325 does not exceed the duration 8/600 of the signal, yet whose
refined end 0.0133 (the 4-decimal rounding of the duration clamp) is
strictly smaller than the original end. -/
theorem c1_counterexample :
    (533/40000 : ℚ) ≤ durationOf y8 600 ∧
    (refineWord y8 600 80 5 5 { word := "a", start := 0, endTime := 533/40000 }).endTime
      < 533/40000 := by
  with_unfolding_all decide

/-- C1, amended: for every word processed by the refiner whose original
end does not exceed the signal duration and lies on the 1/10000 rounding
grid (as every end produced by the interval parser does), the refined
end is at least the original end. -/
theorem c1_refine_monotone (y : List ℚ) (sr W F p : ℕ) (ws : List Word) (i : ℕ) (k : ℤ)
    (hi : i < ws.length)
    (hd : (ws.getD i wdefault).endTime ≤ durationOf y sr)
    (hk : (ws.getD i wdefault).endTime = (k : ℚ)/10000) :
    (ws.getD i wdefault).endTime ≤ ((refineWords y sr W F p ws).getD i wdefault).endTime := by
  rw [refineWords_getD y sr W F p ws i hi, refineWord_eq]
  exact refineEnd_ge_grid y sr W F p _ k hd hk

set_option maxRecDepth 16000 in
theorem c1_refine_monotone_witness :
    0 < ([wGrid] : List Word).length ∧
    (([wGrid] : List Word).getD 0 wdefault).endTime ≤ durationOf y8 600 ∧
    (([wGrid] : List Word).getD 0 wdefault).endTime = ((133 : ℤ) : ℚ)/10000 ∧
    (([wGrid] : List Word).getD 0 wdefault).endTime
      ≤ ((refineWords y8 600 80 5 5 [wGrid]).getD 0 wdefault).endTime :=
  ⟨by decide, by with_unfolding_all decide,
   by simp only [List.getD_cons_zero, wGrid]; norm_num,
   c1_refine_monotone y8 600 80 5 5 [wGrid] 0 133 (by decide)
     (by with_unfolding_all decide)
     (by simp only [List.getD_cons_zero, wGrid]; norm_num)⟩

set_option maxRecDepth 16000 in
/-- C2, counterexample to the claim as stated: a word whose original end
359/7200 does not exceed the duration 60/432 of the signal, yet whose
refined end 0.1367 exceeds original end + search window + padding
(0.134861...): the first silent frame is the trailing centered frame,
whose offset reaches one floor-rounding unit past the search window. -/
theorem c2_counterexample :
    (359/7200 : ℚ) ≤ durationOf y60 432 ∧
    (refineWord y60 432 80 5 5 { word := "b", start := 0, endTime := 359/7200 }).endTime
      > 359/7200 + 80/1000 + 5/1000 := by
  with_unfolding_all decide

/-- C2, amended: for every word processed by the refiner whose original
end does not exceed the signal duration, the refined end is at most the
original end plus the search window plus the padding plus one sample
period plus half a rounding unit, and at most the signal duration plus
half a rounding unit. -/
theorem c2_refine_bounded (y : List ℚ) (sr W F p : ℕ) (ws : List Word) (i : ℕ)
    (hsr : 0 < sr) (hi : i < ws.length)
    (hd : (ws.getD i wdefault).endTime ≤ durationOf y sr) :
    ((refineWords y sr W F p ws).getD i wdefault).endTime
      ≤ (ws.getD i wdefault).endTime + (W : ℚ)/1000 + (p : ℚ)/1000 + 1/(sr : ℚ) + 1/20000 ∧
    ((refineWords y sr W F p ws).getD i wdefault).endTime ≤ durationOf y sr + 1/20000 := by
  rw [refineWords_getD y sr W F p ws i hi, refineWord_eq]
  exact ⟨refineEnd_le_window y sr W F p _ hsr, refineEnd_le_duration y sr W F p _ hd⟩

set_option maxRecDepth 16000 in
theorem c2_refine_bounded_witness :
    0 < 600 ∧ 0 < ([wGrid] : List Word).length ∧
    (([wGrid] : List Word).getD 0 wdefault).endTime ≤ durationOf y8 600 ∧
    (((refineWords y8 600 80 5 5 [wGrid]).getD 0 wdefault).endTime
      ≤ (([wGrid] : List Word).getD 0 wdefault).endTime
        + (80 : ℚ)/1000 + (5 : ℚ)/1000 + 1/(600 : ℚ) + 1/20000 ∧
    ((refineWords y8 600 80 5 5 [wGrid]).getD 0 wdefault).endTime
      ≤ durationOf y8 600 + 1/20000) :=
  ⟨by decide, by decide, by with_unfolding_all decide,
   c2_refine_bounded y8 600 80 5 5 [wGrid] 0 (by decide) (by decide)
     (by with_unfolding_all decide)⟩

set_option maxRecDepth 16000 in
/-- C5, counterexample to the claim as stated: the search window of a
word ending at 0.0133 in an all-loud signal contains no silent frame,
yet the refined end is strictly below original end + padding clamped to
the duration, because the clamp 8/600 is then rounded down to 0.0133. -/
theorem c5_counterexample :
    firstSilence (framesOf y8 600 80 5 (133/10000)) = none ∧
    (refineWord y8 600 80 5 5 { word := "c", start := 0, endTime := 133/10000 }).endTime
      < min ((133/10000 : ℚ) + 5/1000) (durationOf y8 600) := by
  with_unfolding_all decide

/-- C5, amended: for every word with a valid search window in which no
frame falls below the silence threshold, the refined end equals original
end + padding, clamped to the signal duration and then rounded to four
decimal places (the rounding step is what the original claim omits). -/
theorem c5_refine_no_silence (y : List ℚ) (sr W F p : ℕ) (ws : List Word) (i : ℕ)
    (hi : i < ws.length)
    (h1 : startSampleOf sr (ws.getD i wdefault).endTime
      < endSampleOf y sr W (ws.getD i wdefault).endTime)
    (h2 : frameSamplesOf sr F ≤ (segmentOf y sr W (ws.getD i wdefault).endTime).length)
    (h3 : firstSilence (framesOf y sr W F (ws.getD i wdefault).endTime) = none) :
    ((refineWords y sr W F p ws).getD i wdefault).endTime
      = round4 (min ((ws.getD i wdefault).endTime + (p : ℚ)/1000) (durationOf y sr)) := by
  rw [refineWords_getD y sr W F p ws i hi, refineWord_eq]
  exact refineEnd_no_silence y sr W F p _ h1 h2 h3

set_option maxRecDepth 16000 in
theorem c5_refine_no_silence_witness :
    0 < ([wGrid] : List Word).length ∧
    startSampleOf 600 (([wGrid] : List Word).getD 0 wdefault).endTime
      < endSampleOf y8 600 80 (([wGrid] : List Word).getD 0 wdefault).endTime ∧
    frameSamplesOf 600 5
      ≤ (segmentOf y8 600 80 (([wGrid] : List Word).getD 0 wdefault).endTime).length ∧
    firstSilence (framesOf y8 600 80 5 (([wGrid] : List Word).getD 0 wdefault).endTime)
      = none ∧
    ((refineWords y8 600 80 5 5 [wGrid]).getD 0 wdefault).endTime
      = round4 (min ((([wGrid] : List Word).getD 0 wdefault).endTime + (5 : ℚ)/1000)
          (durationOf y8 600)) :=
  ⟨by decide, by with_unfolding_all decide, by with_unfolding_all decide,
   by with_unfolding_all decide,
   c5_refine_no_silence y8 600 80 5 5 [wGrid] 0 (by decide)
     (by with_unfolding_all decide) (by with_unfolding_all decide)
     (by with_unfolding_all decide)⟩

/-- C6: the refiner returns one output word per input word in order;
each output word keeps the input word text and start, and its end is a
function of that word original end and the signal alone, so no word can
influence another word refinement. -/
theorem c6_refine_frame (y : List ℚ) (sr W F p : ℕ) (ws : List Word) :
    (refineWords y sr W F p ws).length = ws.length ∧
    refineWords y sr W F p ws = ws.map (refineWord y sr W F p) ∧
    ∀ w : Word, refineWord y sr W F p w
      = { word := w.word, start := w.start, endTime := refineEnd y sr W F p w.endTime } :=
  ⟨refineWords_length y sr W F p ws, refineWords_eq_map y sr W F p ws,
   fun w => refineWord_eq y sr W F p w⟩

/-! ### The interval parser (src/aligner.py, _parse_textgrid) -/

/-- One labelled interval of a TextGrid tier: mark, minTime, maxTime. -/
structure TGInterval where
  mark : String
  minTime : ℚ
  maxTime : ℚ
deriving DecidableEq, Repr

/-- One named tier holding its intervals in tier order. -/
structure Tier where
  name : String
  intervals : List TGInterval
deriving DecidableEq, Repr

/-- Python str.lower() on the ascii tier names used here. -/
def pyLower (s : String) : String := { data := s.data.map Char.toLower }

/-- Python str.strip(): drop whitespace from both ends. -/
def pyStrip (s : String) : String :=
  { data := ((s.data.dropWhile Char.isWhitespace).reverse.dropWhile Char.isWhitespace).reverse }

/-- The inner loop of _parse_textgrid over one tier: keep an interval
when `interval.mark and interval.mark.strip()` is truthy, appending the
stripped mark and the times rounded to 4 decimal places. -/
def tierWords : List TGInterval → List Word
  | [] => []
  | iv :: ivs =>
      if iv.mark ≠ "" ∧ pyStrip iv.mark ≠ "" then
        { word := pyStrip iv.mark, start := round4 iv.minTime, endTime := round4 iv.maxTime }
          :: tierWords ivs
      else tierWords ivs

/-- The outer loop of _parse_textgrid: scan the tiers for the first one
whose lowercased name is "words", collect its word list and break; when
no tier matches, the initial empty list is returned unchanged. -/
def parseTextGrid : List Tier → List Word
  | [] => []
  | t :: ts => if pyLower t.name = "words" then tierWords t.intervals else parseTextGrid ts

/-- _parse_textgrid starts with textgrid.TextGrid.fromFile, which raises
an exception when the artifact is absent or unreadable; the Option input
models that collaborator boundary (none = reading raised). -/
def parseTextGridFile (tg : Option (List Tier)) : Except String (List Word) :=
  match tg with
  | none => Except.error "TextGrid artifact absent or unreadable"
  | some tiers => Except.ok (parseTextGrid tiers)

/-- The per-interval selection used to state C4: silence intervals
(empty or all-whitespace label) are dropped, surviving labels are
trimmed and times rounded to 4 decimal places. -/
def keptWord (iv : TGInterval) : Option Word :=
  if iv.mark ≠ "" ∧ pyStrip iv.mark ≠ "" then
    some { word := pyStrip iv.mark, start := round4 iv.minTime, endTime := round4 iv.maxTime }
  else none

lemma tierWords_eq_filterMap (ivs : List TGInterval) : tierWords ivs = ivs.filterMap keptWord := by
  induction ivs with
  | nil => rfl
  | cons iv t ih =>
    by_cases h : iv.mark ≠ "" ∧ pyStrip iv.mark ≠ ""
    · have hk : keptWord iv = some { word := pyStrip iv.mark, start := round4 iv.minTime, endTime := round4 iv.maxTime } := by
        unfold keptWord; rw [if_pos h]
      unfold tierWords
      rw [if_pos h, List.filterMap_cons_some hk, ih]
    · have hk : keptWord iv = none := by
        unfold keptWord; rw [if_neg h]
      unfold tierWords
      rw [if_neg h, List.filterMap_cons_none hk, ih]

lemma parseTextGrid_no_tier (tiers : List Tier)
    (h : ∀ t ∈ tiers, pyLower t.name ≠ "words") : parseTextGrid tiers = [] := by
  induction tiers with
  | nil => rfl
  | cons t ts ih =>
    unfold parseTextGrid
    rw [if_neg (h t (List.mem_cons_self t ts))]
    exact ih (fun x hx => h x (List.mem_cons_of_mem t hx))

/-- A TextGrid whose only tier is a phone tier: no word-level tier. -/
def tgPhones : List Tier :=
  [{ name := "phones", intervals := [{ mark := "p", minTime := 0, maxTime := 1/2 }] }]

/-- C3, counterexample to the claim as stated: an interval-tier artifact
that contains no tier named "words" (case-insensitively) is parsed to a
successful empty word list, not a MalformedOutput failure. -/
theorem c3_counterexample : parseTextGridFile (some tgPhones) = Except.ok [] := by
  have h : parseTextGrid tgPhones = [] := by decide
  simp [parseTextGridFile, h]

/-- C3, amended: an absent or unreadable artifact does fail, but an
artifact without a matching word-level tier parses to a successful empty
word list instead of failing. -/
theorem c3_parser_no_tier (tiers : List Tier)
    (h : ∀ t ∈ tiers, pyLower t.name ≠ "words") :
    (∃ msg, parseTextGridFile none = Except.error msg) ∧
    parseTextGridFile (some tiers) = Except.ok [] := by
  refine ⟨⟨_, rfl⟩, ?_⟩
  simp only [parseTextGridFile]
  rw [parseTextGrid_no_tier tiers h]

theorem c3_parser_no_tier_witness :
    (∀ t ∈ tgPhones, pyLower t.name ≠ "words") ∧
    ((∃ msg, parseTextGridFile none = Except.error msg) ∧
      parseTextGridFile (some tgPhones) = Except.ok []) :=
  ⟨by decide, c3_parser_no_tier tgPhones (by decide)⟩

/-- C4: whenever the artifact has a word-level tier (first tier whose
lowercased name is "words"), parsing returns exactly the non-silence
intervals of that tier, in tier order, labels stripped and times rounded
to 4 decimal places. -/
theorem c4_silence_filtering (tiers : List Tier) (t : Tier)
    (hfind : tiers.find? (fun tr => pyLower tr.name == "words") = some t) :
    parseTextGrid tiers = t.intervals.filterMap keptWord := by
  induction tiers with
  | nil => simp [List.find?] at hfind
  | cons a ts ih =>
    by_cases h : pyLower a.name = "words"
    · rw [List.find?_cons_of_pos _ (by simpa using h)] at hfind
      have ht : a = t := by injection hfind
      unfold parseTextGrid
      rw [if_pos h, ht, tierWords_eq_filterMap]
    · rw [List.find?_cons_of_neg _ (by simpa using h)] at hfind
      unfold parseTextGrid
      rw [if_neg h]
      exact ih hfind

/-- The tier used to exercise silence filtering: an uppercase name (the
match is case-insensitive), one real word, one empty label, one
whitespace-only label and one label with surrounding whitespace. -/
def tierC4 : Tier :=
  { name := "Words", intervals := [
      { mark := "hello", minTime := 0, maxTime := 1/2 },
      { mark := "", minTime := 1/2, maxTime := 3/5 },
      { mark := "  ", minTime := 3/5, maxTime := 7/10 },
      { mark := " world ", minTime := 7/10, maxTime := 1 } ] }

theorem c4_silence_filtering_witness :
    [tierC4].find? (fun tr => pyLower tr.name == "words") = some tierC4 ∧
    parseTextGrid [tierC4] = tierC4.intervals.filterMap keptWord :=
  ⟨by with_unfolding_all decide, c4_silence_filtering [tierC4] tierC4 (by with_unfolding_all decide)⟩

/-! ### The engine invoker boundary (src/aligner.py, _run_mfa) and the
endpoint error surface (src/main.py, align_audio) -/

/-- Outcome of the bounded external mfa invocation: either subprocess.run
returned within the 300 s budget with an exit code and captured output,
or it exceeded the budget. -/
inductive ToolOutcome where
  | timedOut : ToolOutcome
  | completed (exitcode : ℤ) (stdout stderr : String) : ToolOutcome
deriving DecidableEq

/-- The two exception types escaping _run_mfa: subprocess.TimeoutExpired
raised by subprocess.run itself, and the RuntimeError raised explicitly
for a non-zero exit status.  Each carries its str() text. -/
inductive ToolError where
  | timeout (msg : String)
  | failure (msg : String)
deriving DecidableEq

/-- _run_mfa: a timeout propagates TimeoutExpired (its str() text is
modelled by the fixed message below); a non-zero exit raises
RuntimeError with the stderr text; otherwise the call returns. -/
def runMfa (o : ToolOutcome) : Except ToolError Unit :=
  match o with
  | ToolOutcome.timedOut =>
      Except.error (ToolError.timeout "Command mfa align_one timed out after 300 seconds")
  | ToolOutcome.completed rc _ err =>
      if rc ≠ 0 then Except.error (ToolError.failure ("MFA failed: " ++ err))
      else Except.ok ()

/-- str(e) of either exception. -/
def toolErrorText : ToolError → String
  | ToolError.timeout m => m
  | ToolError.failure m => m

/-- The structured failure the HTTP caller receives. -/
structure HttpFailure where
  status : ℕ
  detail : String
deriving DecidableEq

/-- main.py lines 150-151: every exception escaping the pipeline body is
rewrapped as HTTPException(status_code=500, detail="Alignment failed: "
followed by str(e)). -/
def surfaceToCaller (e : ToolError) : HttpFailure :=
  { status := 500, detail := "Alignment failed: " ++ toolErrorText e }

/-- C7, counterexample to the claim as stated: a timeout and a non-zero
exit are surfaced to the caller with the same failure kind, HTTP status
500; only the human-readable detail text differs. -/
theorem c7_counterexample :
    runMfa ToolOutcome.timedOut
      = Except.error (ToolError.timeout "Command mfa align_one timed out after 300 seconds") ∧
    runMfa (ToolOutcome.completed 1 "" "boom")
      = Except.error (ToolError.failure "MFA failed: boom") ∧
    (surfaceToCaller
        (ToolError.timeout "Command mfa align_one timed out after 300 seconds")).status
      = (surfaceToCaller (ToolError.failure "MFA failed: boom")).status := by
  refine ⟨rfl, ?_, rfl⟩
  simp [runMfa]

/-- C7, amended: inside the engine invoker a timeout raises an exception
of a type distinct from the RuntimeError of a non-zero exit, so code
catching the exceptions can distinguish them, but the endpoint handler
maps every such error to the same surfaced failure kind (HTTP 500), so
the HTTP caller cannot distinguish the two cases by kind. -/
theorem c7_tool_error_kinds (rc : ℤ) (out err : String) (h : rc ≠ 0) :
    (∃ m, runMfa ToolOutcome.timedOut = Except.error (ToolError.timeout m)) ∧
    (∃ m, runMfa (ToolOutcome.completed rc out err) = Except.error (ToolError.failure m)) ∧
    (∀ m₁ m₂, ToolError.timeout m₁ ≠ ToolError.failure m₂) ∧
    (∀ e₁ e₂ : ToolError, (surfaceToCaller e₁).status = (surfaceToCaller e₂).status) := by
  refine ⟨⟨"Command mfa align_one timed out after 300 seconds", rfl⟩,
    ⟨"MFA failed: " ++ err, ?_⟩, fun m₁ m₂ => by simp, fun e₁ e₂ => rfl⟩
  simp [runMfa, h]

theorem c7_tool_error_kinds_witness :
    (1 : ℤ) ≠ 0 ∧
    ((∃ m, runMfa ToolOutcome.timedOut = Except.error (ToolError.timeout m)) ∧
     (∃ m, runMfa (ToolOutcome.completed 1 "out" "boom")
        = Except.error (ToolError.failure m)) ∧
     (∀ m₁ m₂, ToolError.timeout m₁ ≠ ToolError.failure m₂) ∧
     (∀ e₁ e₂ : ToolError, (surfaceToCaller e₁).status = (surfaceToCaller e₂).status)) :=
  ⟨by decide, c7_tool_error_kinds 1 "out" "boom" (by decide)⟩

/-! ### The pipeline controller (src/main.py, align_audio) -/

/-- The request fields the controller logic reads.  The audio payload is
carried separately: decodeOk tells whether base64.b64decode succeeds and
the sample list y (passed to alignAudio) is the signal librosa.load
reads back from the written file. -/
structure AlignRequest where
  transcript : String
  language : String
  refineEndpoints : Bool
  sampleRate : ℕ
deriving DecidableEq

/-- The response fields with stable content.  processing_time_ms is
wall-clock time and is not modelled. -/
structure AlignResponse where
  words : List Word
  totalDuration : ℚ
  modelUsed : String
  refined : Bool
deriving DecidableEq

/-- LANGUAGE_MODELS of src/aligner.py: language code, acoustic model id,
dictionary id, in the dict insertion order. -/
def LANGUAGE_MODELS : List (String × String × String) :=
  [("en", "english_us_arpa", "english_us_arpa"),
   ("ru", "russian_mfa", "russian_mfa"),
   ("es", "spanish_mfa", "spanish_mfa"),
   ("de", "german_mfa", "german_mfa"),
   ("pt", "portuguese_mfa", "portuguese_mfa")]

/-- available_languages = list(LANGUAGE_MODELS.keys()). -/
def availableLanguages : List String := LANGUAGE_MODELS.map (fun m => m.1)

/-- get_model_name: LANGUAGE_MODELS.get(language, default dict).get of
the acoustic id, "unknown" when the language is absent. -/
def getModelName (language : String) : String :=
  match LANGUAGE_MODELS.find? (fun m => m.1 == language) with
  | some m => m.2.1
  | none => "unknown"

/-- The guard of main.py line 130, `if request.refine_endpoints and
words:` — true exactly when the refiner is invoked. -/
def refinementApplied (req : AlignRequest) (words : List Word) : Bool :=
  req.refineEndpoints && !words.isEmpty

/-- The body of align_audio, parameterised over the refiner function and
over the outcome of aligner.align (the resample + engine + parse steps,
whose exceptions surface as the error text).  The second component is
the trace of scratch artifacts created, in creation order: the language
check precedes the base64 decode, which precedes the temp directory and
audio file.  The Python detail strings quote the language name and list
repr; the quoting is not reproduced here. -/
def alignCore (refiner : List Word → List Word) (engine : Except String (List Word))
    (decodeOk : Bool) (req : AlignRequest) :
    Except HttpFailure AlignResponse × List String :=
  if req.language ∉ availableLanguages then
    (Except.error
      { status := 400,
        detail := "Language " ++ req.language ++ " not supported. Available: en, ru, es, de, pt" },
     [])
  else if !decodeOk then
    (Except.error { status := 500, detail := "Alignment failed: invalid base64" }, [])
  else
    match engine with
    | Except.error e =>
        (Except.error { status := 500, detail := "Alignment failed: " ++ e },
         ["tmpdir", "input.wav"])
    | Except.ok words =>
        let words2 := if refinementApplied req words then refiner words else words
        let resp : AlignResponse :=
          { words := words2,
            totalDuration := if words2.isEmpty then 0 else (words2.getLast?.getD wdefault).endTime,
            modelUsed := getModelName req.language,
            refined := req.refineEndpoints }
        (Except.ok resp, ["tmpdir", "input.wav"])

/-- align_audio with the refiner of the repository: refine_word_endpoints
on the request audio at the request sample rate, with the module default
search window, frame length and padding. -/
def alignAudio (y : List ℚ) (engine : Except String (List Word)) (decodeOk : Bool)
    (req : AlignRequest) : Except HttpFailure AlignResponse × List String :=
  alignCore (fun ws => refineWords y req.sampleRate 80 5 5 ws) engine decodeOk req

/-- C8: a request with a language outside the registry fails with the
validation status 400 before any scratch artifact is created. -/
theorem c8_unsupported_language (y : List ℚ) (engine : Except String (List Word))
    (decodeOk : Bool) (req : AlignRequest) (h : req.language ∉ availableLanguages) :
    (∃ msg, (alignAudio y engine decodeOk req).1
      = Except.error { status := 400, detail := msg }) ∧
    (alignAudio y engine decodeOk req).2 = [] := by
  unfold alignAudio alignCore
  rw [if_pos h]
  exact ⟨⟨"Language " ++ req.language ++ " not supported. Available: en, ru, es, de, pt", rfl⟩,
    rfl⟩

theorem c8_unsupported_language_witness :
    ("fr" ∉ availableLanguages) ∧
    ((∃ msg, (alignAudio [] (Except.ok []) true
        { transcript := "t", language := "fr", refineEndpoints := true, sampleRate := 24000 }).1
      = Except.error { status := 400, detail := msg }) ∧
    (alignAudio [] (Except.ok []) true
        { transcript := "t", language := "fr", refineEndpoints := true, sampleRate := 24000 }).2
      = []) :=
  ⟨by decide,
   c8_unsupported_language [] (Except.ok []) true
     { transcript := "t", language := "fr", refineEndpoints := true, sampleRate := 24000 }
     (by decide)⟩

lemma alignCore_ok (refiner : List Word → List Word) (words : List Word) (req : AlignRequest)
    (hlang : req.language ∈ availableLanguages) :
    alignCore refiner (Except.ok words) true req =
      (Except.ok
        { words := if refinementApplied req words then refiner words else words,
          totalDuration :=
            if (if refinementApplied req words then refiner words else words).isEmpty then 0
            else ((if refinementApplied req words then refiner words
              else words).getLast?.getD wdefault).endTime,
          modelUsed := getModelName req.language,
          refined := req.refineEndpoints }, ["tmpdir", "input.wav"]) := by
  unfold alignCore
  rw [if_neg (not_not_intro hlang)]
  rfl

lemma lang_model_lookup (lang : String) (h : lang ∈ availableLanguages) :
    ∃ m ∈ LANGUAGE_MODELS, m.1 = lang ∧ getModelName lang = m.2.1 := by
  have hex : ∃ x ∈ LANGUAGE_MODELS, (fun m => m.1 == lang) x = true := by
    obtain ⟨m, hm, hfst⟩ := List.mem_map.mp h
    exact ⟨m, hm, by simp [hfst]⟩
  have hsome : (LANGUAGE_MODELS.find? (fun m => m.1 == lang)).isSome :=
    List.find?_isSome.mpr hex
  obtain ⟨m2, hfind⟩ := Option.isSome_iff_exists.mp hsome
  refine ⟨m2, List.mem_of_find?_eq_some hfind, ?_, ?_⟩
  · have := List.find?_some hfind
    simpa using this
  · simp [getModelName, hfind]

/-- The request used for the concrete endpoint checks: language en,
refinement requested. -/
def reqEn : AlignRequest :=
  { transcript := "t", language := "en", refineEndpoints := true, sampleRate := 24000 }

/-- C9, counterexample to the claim as stated: when the engine yields an
empty word list and the request opted into refinement, the response
reports refined = true although refinement was not applied (the guard of
the refiner call is false). -/
theorem c9_counterexample :
    (alignAudio [] (Except.ok []) true reqEn).1
      = Except.ok
          { words := [], totalDuration := 0, modelUsed := "english_us_arpa", refined := true } ∧
    refinementApplied reqEn [] = false := by
  constructor
  · unfold alignAudio
    rw [alignCore_ok _ _ _ (by decide)]
    simp [refinementApplied, reqEn, getModelName, LANGUAGE_MODELS]
  · decide

/-- C9, amended: on success the total duration is the end of the last
response word (0 when there are none) and the model identifier is the
acoustic model registered for the request language, as claimed; the
refined flag however equals the refine_endpoints field of the request,
which coincides with whether refinement was actually applied only when
the engine word list is nonempty. -/
theorem c9_success_metadata (y : List ℚ) (engineWords : List Word) (req : AlignRequest)
    (hlang : req.language ∈ availableLanguages) :
    ∃ resp : AlignResponse,
      (alignAudio y (Except.ok engineWords) true req).1 = Except.ok resp ∧
      resp.totalDuration
        = (if resp.words.isEmpty then 0 else (resp.words.getLast?.getD wdefault).endTime) ∧
      (∃ m ∈ LANGUAGE_MODELS, m.1 = req.language ∧ resp.modelUsed = m.2.1) ∧
      resp.refined = req.refineEndpoints ∧
      (engineWords ≠ [] → (resp.refined = true ↔ refinementApplied req engineWords = true)) := by
  obtain ⟨m, hm, hm1, hm2⟩ := lang_model_lookup req.language hlang
  refine ⟨_, by unfold alignAudio; rw [alignCore_ok _ _ _ hlang], rfl, ⟨m, hm, hm1, hm2⟩,
    rfl, ?_⟩
  intro hne
  cases engineWords with
  | nil => exact absurd rfl hne
  | cons w t => simp [refinementApplied]

theorem c9_success_metadata_witness :
    ("en" ∈ availableLanguages) ∧
    (∃ resp : AlignResponse,
      (alignAudio [] (Except.ok [wGrid]) true reqEn).1 = Except.ok resp ∧
      resp.totalDuration
        = (if resp.words.isEmpty then 0 else (resp.words.getLast?.getD wdefault).endTime) ∧
      (∃ m ∈ LANGUAGE_MODELS, m.1 = reqEn.language ∧ resp.modelUsed = m.2.1) ∧
      resp.refined = reqEn.refineEndpoints ∧
      ([wGrid] ≠ [] → (resp.refined = true ↔ refinementApplied reqEn [wGrid] = true))) :=
  ⟨by decide, c9_success_metadata [] [wGrid] reqEn (by decide)⟩

/-- C10: when the engine word list is empty the refiner is not invoked
at all — the endpoint result does not depend on the refiner function,
even with refinement requested — and the request succeeds with an empty
word list and total duration 0. -/
theorem c10_empty_words (f g : List Word → List Word) (req : AlignRequest)
    (hlang : req.language ∈ availableLanguages) :
    alignCore f (Except.ok []) true req = alignCore g (Except.ok []) true req ∧
    (alignCore f (Except.ok []) true req).1
      = Except.ok
          { words := [], totalDuration := 0, modelUsed := getModelName req.language,
            refined := req.refineEndpoints } := by
  have hf := alignCore_ok f [] req hlang
  have hg := alignCore_ok g [] req hlang
  have happ : refinementApplied req [] = false := by simp [refinementApplied]
  constructor
  · rw [hf, hg]
    simp [happ]
  · rw [hf]
    simp [happ]

theorem c10_empty_words_witness :
    ("en" ∈ availableLanguages) ∧
    (alignCore id (Except.ok []) true reqEn = alignCore (fun _ => []) (Except.ok []) true reqEn ∧
     (alignCore id (Except.ok []) true reqEn).1
       = Except.ok
           { words := [], totalDuration := 0, modelUsed := getModelName reqEn.language,
             refined := reqEn.refineEndpoints }) :=
  ⟨by decide, c10_empty_words id (fun _ => []) reqEn (by decide)⟩
